import Mathlib

/-!
# Pilot Journey Log — shallow embedding and verification

A shallow embedding of the pure data/computation core of
`src/pilot_journey_log_app_react.jsx` (a single-page pilot flight-log sheet):
time arithmetic (`hmToMinutes`, `minutesToHM`, `calcBlock`), the row model
(`clearEntry`, `nextLoadNumber`, the per-row update of `updateRow`), the
fuel-on-board forward-seed effect, CSV export/import, and the application
state machine (`AppState`/`Op`/`step`) with its closed-sheet gating.

JavaScript numbers are modelled on their exact integer fragment (`Int`,
no floating point); `Number(string)` is modelled by `jsNumber`, covering
the whitespace-trimmed optional-sign decimal-integer literals that the
application itself ever produces (`String(n)` of an integer, `""`, and
arbitrary non-numeric text mapping to NaN).  JS `String.split` on a
one-character separator is modelled by `List.splitOn` on the character
list of the string.
-/

namespace PilotLog

/-- Numeric value of a decimal digit character. -/
def digitVal (c : Char) : Nat := c.toNat - 48

/-- Fuel-driven helper for `natChars`; the fuel only bounds the recursion
depth and is irrelevant once it exceeds the number of digits. -/
def natCharsAux : Nat → Nat → List Char
  | 0, _ => []
  | f + 1, n =>
    if n < 10 then [Char.ofNat (48 + n)]
    else natCharsAux f (n / 10) ++ [Char.ofNat (48 + n % 10)]

/-- Decimal digit characters of a natural number, most significant first
(the digit list underlying JS `String(n)` for a non-negative integer). -/
def natChars (n : Nat) : List Char := natCharsAux (n + 1) n

/-- JS `String(n)` for an integer value `n` (decimal rendering, `-` sign). -/
def intStr (n : Int) : String :=
  if n < 0 then ⟨'-' :: natChars n.natAbs⟩ else ⟨natChars n.natAbs⟩

/-- Value of a non-empty all-digit character list, most significant first. -/
def digitsVal (l : List Char) : Nat :=
  l.foldl (fun a c => a * 10 + digitVal c) 0

/-- `some` of the value of a character list when it is a non-empty string of
decimal digits, else `none`. -/
def parseDigits (l : List Char) : Option Nat :=
  if l ≠ [] ∧ l.all (·.isDigit) then some (digitsVal l) else none

/-- Whitespace for the purposes of JS `String.prototype.trim` (restricted
to the ASCII whitespace the application can encounter). -/
def isWs (c : Char) : Bool := c == ' ' || c == '\t' || c == '\n' || c == '\r'

/-- JS `s.trim()` on a character list: strip leading and trailing
whitespace. -/
def jsTrim (l : List Char) : List Char :=
  ((l.dropWhile isWs).reverse.dropWhile isWs).reverse

/-- JS `Number(s)` restricted to the integer fragment: the string is
trimmed; the empty string parses to `0`; an optional sign followed by
decimal digits parses to its value; anything else is NaN (`none`). -/
def jsNumber (s : String) : Option Int :=
  let l := jsTrim s.toList
  if l = [] then some 0
  else if l.headD ' ' = '-' then (parseDigits l.tail).map (fun n => -(n : Int))
  else if l.headD ' ' = '+' then (parseDigits l.tail).map (fun n => (n : Int))
  else (parseDigits l).map (fun n => (n : Int))

/-- Value stored in the `PAX`/`LDG` field of a row: the empty string, a
finite number, or NaN (the three values `v === "" ? "" : Number(v)` can
produce). -/
inductive NumCell where
  | blank
  | num (n : Int)
  | nan
deriving DecidableEq, Repr

/-- `v === "" ? "" : Number(v)` — the conversion `updateRow` and
`importCSV` apply to a `PAX`/`LDG` input string. -/
def jsCell (v : String) : NumCell :=
  if v = "" then .blank else
    match jsNumber v with
    | some n => .num n
    | none => .nan

/-- JS string rendering of a `PAX`/`LDG` cell (`String(x)`), as used by
CSV export and display. -/
def numCellStr : NumCell → String
  | .blank => ""
  | .num n => intStr n
  | .nan => "NaN"

/-! ## Time arithmetic -/

/-- `hmToMinutes(hm)` from the source: match `hm` against the regex
`^(\d{1,2}):(\d{2})$`; on a match return `hours * 60 + minutes`, on no
match (including the empty string, which the source rejects up front with
`if (!hm) return 0`) return `0`.  The two match arms below are the
one-digit-hour and two-digit-hour shapes of the regex. -/
def hmToMinutes (hm : String) : Nat :=
  match hm.toList with
  | [h1, c, m1, m2] =>
      if h1.isDigit ∧ c = ':' ∧ m1.isDigit ∧ m2.isDigit then
        digitVal h1 * 60 + (10 * digitVal m1 + digitVal m2)
      else 0
  | [h1, h2, c, m1, m2] =>
      if h1.isDigit ∧ h2.isDigit ∧ c = ':' ∧ m1.isDigit ∧ m2.isDigit then
        (10 * digitVal h1 + digitVal h2) * 60 + (10 * digitVal m1 + digitVal m2)
      else 0
  | _ => 0

/-- JS `x | 0`: 32-bit two's-complement truncation of an integer. -/
def toInt32 (n : Int) : Int := (n + 2 ^ 31) % 2 ^ 32 - 2 ^ 31

/-- `padStart(2, "0")` on the decimal rendering of a natural number. -/
def pad2 (n : Nat) : String :=
  let s : String := ⟨natChars n⟩
  if s.length < 2 then "0" ++ s else s

/-- `minutesToHM(mins)` from the source: `a = Math.max(0, mins | 0)`, then
`floor(a / 60)` and `a % 60`, both rendered zero-padded to two digits and
joined with `":"`. -/
def minutesToHM (mins : Int) : String :=
  let a : Nat := (max 0 (toInt32 mins)).toNat
  pad2 (a / 60) ++ ":" ++ pad2 (a % 60)

/-- `calcBlock(to, ld)` from the source: empty output when either input is
empty or either parses to `0`; otherwise `end - start` with `24 * 60`
added to `end` when it is below `start` (crossed midnight), formatted. -/
def calcBlock (toS ldS : String) : String :=
  if toS = "" ∨ ldS = "" then "" else
    let start := hmToMinutes toS
    let e := hmToMinutes ldS
    if start = 0 ∨ e = 0 then "" else
      let e2 := if e < start then e + 24 * 60 else e
      minutesToHM ((e2 : Int) - (start : Int))

/-! ## Row model -/

/-- Reserved identifier of the optional ferry row (`FERRY_ID` in the
source, `"ferry-row-fixed"`). -/
def ferryId : String := "ferry-row-fixed"

/-- One flight-log row (`SimpleLogEntry`).  Field-name mapping to the
source's column keys: `load ↦ Load`, `toT ↦ T/O`, `ldT ↦ L/D`,
`flt ↦ FLT/T`, `blk ↦ BLK/T`, `fob ↦ FOB`, `fb ↦ F/B`, `pax ↦ PAX`,
`ldg ↦ LDG`, `fup ↦ F/UP`, `remarks ↦ REMARKS`. -/
structure Entry where
  id : String
  load : String
  toT : String
  ldT : String
  flt : String
  blk : String
  fob : String
  fb : String
  pax : NumCell
  ldg : NumCell
  fup : String
  remarks : String
deriving DecidableEq, Repr

/-- The eleven column keys of the sheet (`COLS` in the source). -/
inductive Key where
  | load | tO | lD | flt | blk | fob | fb | pax | ldg | fup | remarks
deriving DecidableEq, Repr

/-- The `COLS` array: the column keys in sheet order. -/
def colsKeys : List Key :=
  [.load, .tO, .lD, .flt, .blk, .fob, .fb, .pax, .ldg, .fup, .remarks]

/-- The column-header text of each key, exactly as in `COLS`. -/
def headerName : Key → String
  | .load => "Load"
  | .tO => "T/O"
  | .lD => "L/D"
  | .flt => "FLT/T"
  | .blk => "BLK/T"
  | .fob => "FOB"
  | .fb => "F/B"
  | .pax => "PAX"
  | .ldg => "LDG"
  | .fup => "F/UP"
  | .remarks => "REMARKS"

/-- `(row)[c] ?? ""` rendered to text, as CSV export and display use it
(`PAX`/`LDG` cells are stringified with JS `String`). -/
def colStr (r : Entry) : Key → String
  | .load => r.load
  | .tO => r.toT
  | .lD => r.ldT
  | .flt => r.flt
  | .blk => r.blk
  | .fob => r.fob
  | .fb => r.fb
  | .pax => numCellStr r.pax
  | .ldg => numCellStr r.ldg
  | .fup => r.fup
  | .remarks => r.remarks

/-- The per-row body of `updateRow(id, key, value)` from the source: set
the addressed field (`PAX`/`LDG` through the `v === "" ? "" : Number(v)`
conversion), and when the key is `T/O` or `L/D` and afterwards at least
one of the two is non-empty, recompute `FLT/T = calcBlock(T/O, L/D)`
(`span || ""` equals `span`, since `calcBlock` already returns `""` on
failure); `BLK/T` stays manual. -/
def updateEntry (r : Entry) (k : Key) (v : String) : Entry :=
  let next : Entry :=
    match k with
    | .load => { r with load := v }
    | .tO => { r with toT := v }
    | .lD => { r with ldT := v }
    | .flt => { r with flt := v }
    | .blk => { r with blk := v }
    | .fob => { r with fob := v }
    | .fb => { r with fb := v }
    | .pax => { r with pax := jsCell v }
    | .ldg => { r with ldg := jsCell v }
    | .fup => { r with fup := v }
    | .remarks => { r with remarks := v }
  if (k = .tO ∨ k = .lD) ∧ (next.toT ≠ "" ∨ next.ldT ≠ "") then
    { next with flt := calcBlock next.toT next.ldT }
  else next

/-- `clearEntry(row)` from the source: every field except `id`, `Load`
and `BLK/T` is reset to the empty value. -/
def clearEntry (r : Entry) : Entry :=
  { r with toT := "", ldT := "", flt := "", fob := "", fb := "",
           pax := .blank, ldg := .blank, fup := "", remarks := "" }

/-- `nextLoadNumber(all)` from the source: drop the ferry row, parse each
remaining `Load` with `Number(String(x.Load).trim())` keeping only finite
results, and return the maximum plus one, or `1` when nothing parsed
(`jsNumber` already trims, like `Number` itself). -/
def nextLoadNumber (all : List Entry) : Int :=
  let nums := (all.filter (fun x => x.id ≠ ferryId)).filterMap
    (fun x => jsNumber x.load)
  match nums.max? with
  | none => 1
  | some m => m + 1

/-- Target-row selection of the FOB forward-seed effect: the first
non-ferry row when one exists (`loads[0].id`), else the ferry row when
present, else none. -/
def fobTargetId (rows : List Entry) : Option String :=
  let loads := rows.filter (fun r => r.id ≠ ferryId)
  if loads ≠ [] then loads.head?.map (·.id)
  else (rows.find? (fun r => r.id = ferryId)).map (·.id)

/-- The FOB forward-seed `useEffect` body from the source: when the
starting-fuel value is non-empty and a target row exists, set the `FOB`
of every row carrying the target id whose `FOB` is currently the empty
string; all other rows are returned unchanged.  (The source's
`changed ? next : prev` is value-equal to the unconditional map.) -/
def seedFob (v : String) (rows : List Entry) : List Entry :=
  if v = "" then rows else
    match fobTargetId rows with
    | none => rows
    | some tid =>
      rows.map (fun r => if r.id = tid ∧ r.fob = "" then { r with fob := v } else r)

/-- A fresh load row as `addRow` builds it: sequential label, all fields
empty except `FOB`, which is seeded from starting fuel when the sheet has
no load rows yet. -/
def mkLoadRow (newId loadLabel fobInit : String) : Entry :=
  { id := newId, load := loadLabel, toT := "", ldT := "", flt := "",
    blk := "", fob := fobInit, fb := "", pax := .blank, ldg := .blank,
    fup := "", remarks := "" }

/-- The ferry row as `addFerryRow` builds it (`FOB` seeded with
`fobStart || ""`). -/
def mkFerryRow (fobInit : String) : Entry :=
  { id := ferryId, load := "FERRY", toT := "", ldT := "", flt := "",
    blk := "", fob := fobInit, fb := "", pax := .blank, ldg := .blank,
    fup := "", remarks := "" }

/-! ## CSV export and import -/

/-- JS `s.split(c)` for a one-character separator, modelled by
`List.splitOn` on the character list (identical semantics: `""` splits to
`[""]`, adjacent separators yield empty pieces). -/
def jsSplitChar (c : Char) (s : String) : List String :=
  (s.toList.splitOn c).map (fun l => ⟨l⟩)

/-- `s.trim()` as a string-to-string function. -/
def jsTrimStr (s : String) : String := ⟨jsTrim s.toList⟩

/-- JS `ls.join(c)` for a one-character separator (also what
`Array.prototype.toString` does with `c = ','`). -/
def joinChar (c : Char) (ls : List String) : String :=
  ⟨List.intercalate [c] (ls.map String.toList)⟩

/-- Drop one trailing `'\r'` from a character list, if present. -/
def dropTailCR (l : List Char) : List Char :=
  if l.getLast? = some '\r' then l.dropLast else l

/-- Strip the trailing `'\r'` of every piece that was followed by a
newline, i.e. every piece but the last. -/
def stripCRPieces : List (List Char) → List (List Char)
  | [] => []
  | [l] => [l]
  | l :: rest => dropTailCR l :: stripCRPieces rest

/-- JS `text.split(/\r?\n/)`: split on `'\n'` and strip the `'\r'`
immediately preceding each `'\n'` (a lone `'\r'` is not a separator). -/
def splitCRLF (s : String) : List String :=
  (stripCRPieces (s.toList.splitOn '\n')).map (fun l => ⟨l⟩)

/-- The CSV text `exportCSV` builds: `COLS.join(",")`, a newline, then
the rows, each rendered as its eleven column values joined with `","`
(`Array.prototype.toString`), joined with `"\n"`.  An empty row list
yields the header followed by a single newline. -/
def exportCSV (rows : List Entry) : String :=
  joinChar ',' (colsKeys.map headerName) ++ "\n" ++
    joinChar '\n' (rows.map (fun r => joinChar ',' (colsKeys.map (colStr r))))

/-- One exported row line: the row's eleven column values joined with
`","` (this is exactly the per-row expression inside `exportCSV`). -/
def rowLine (r : Entry) : String := joinChar ',' (colsKeys.map (colStr r))

/-- The eleven column values of a row, in sheet order — the row's
observable content (everything except the internal `id`). -/
def content (r : Entry) : List String := colsKeys.map (colStr r)

/-- A row is CSV-clean when none of its column values contains a comma,
a line feed or a carriage return. -/
def rowClean (r : Entry) : Bool :=
  (content r).all (fun s => s.toList.all (fun ch => ¬(ch = ',' ∨ ch = '\n' ∨ ch = '\r')))

/-- Outcome of `importCSV`: fewer than two non-empty lines (silent
`return`, no message), header mismatch (`alert` and `return`), or the
whole sheet replaced by the parsed rows (`setRows(() => imported)`). -/
inductive ImportOutcome where
  | tooShort
  | headerMismatch
  | replaced (rows : List Entry)
deriving DecidableEq, Repr

/-- The header check of `importCSV`: for each of the eleven expected
column names, the corresponding comma-split cell of the first line,
trimmed, must equal it (`(header[i] ? header[i].trim() : "") === c`; the
falsy-guard changes nothing because `"".trim()` is `""` and a missing
cell is read as `""`). -/
def headerLineOk (line : String) : Bool :=
  let header := jsSplitChar ',' line
  colsKeys.enum.all (fun p => jsTrimStr (header.getD p.1 "") = headerName p.2)

/-- One imported data line of `importCSV`: cells positionally by column
(`cells[i] ?? ""`), `PAX`/`LDG` through the numeric conversion, `FLT/T`
recomputed from `T/O`/`L/D` only when the cell is empty, and the id set
to the reserved ferry identifier exactly when the `Load` cell is
`"FERRY"` (else the fresh `uid()`). -/
def parseEntry (freshId : String) (cells : List String) : Entry :=
  let get := fun i => cells.getD i ""
  let load := get 0
  let toT := get 1
  let ldT := get 2
  let flt0 := get 3
  let span := calcBlock toT ldT
  { id := if load = "FERRY" then ferryId else freshId
    load := load, toT := toT, ldT := ldT
    flt := if flt0 = "" then span else flt0
    blk := get 4, fob := get 5, fb := get 6
    pax := jsCell (get 7), ldg := jsCell (get 8)
    fup := get 9, remarks := get 10 }

/-- `importCSV` on the file's text: split into lines (`/\r?\n/`), drop
empty lines (`filter(Boolean)`), return silently when fewer than two
remain, abort with a message on a header mismatch, otherwise parse every
data line; `ids n` models the `uid()` generated for the `n`-th data
line. -/
def importCSV (ids : Nat → String) (text : String) : ImportOutcome :=
  let lines := (splitCRLF text).filter (fun l => l ≠ "")
  if lines.length < 2 then .tooShort
  else if headerLineOk (lines.getD 0 "") then
    .replaced ((lines.drop 1).enum.map (fun p => parseEntry (ids p.1) (jsSplitChar ',' p.2)))
  else .headerMismatch

/-- The row set an import outcome leaves in the application: unchanged
unless the outcome replaces the sheet. -/
def applyImport (o : ImportOutcome) (rows : List Entry) : List Entry :=
  match o with
  | .replaced rs => rs
  | _ => rows

/-! ## Application state and operations

The component state of `PilotJourneyLogSimpleV2` and one `step` function
per user-visible operation.  Guards come from two places in the source:
the row handlers (`addRow`, `addFerryRow`, `updateRow`, `setNow`,
`deleteRow`, `clearRow`) each begin with `if (isClosed) return;`, and the
pilot/DZ/registration/date/search inputs carry `disabled={isClosed}` (a
disabled input fires no change events, so the corresponding edit cannot
occur while closed).  The FOB (Start) and the two duty-window inputs have
no `disabled` attribute, and `importCSV` performs no closed check. -/

structure AppState where
  rows : List Entry
  search : String
  dutyStart : String
  dutyEnd : String
  pilot : String
  dz : String
  reg : String
  date : String
  fobStart : String
  isClosed : Bool
deriving DecidableEq, Repr

/-- The freshly mounted sheet: no rows (`makeInitialRows()`), empty
header fields, not closed. -/
def initialState : AppState :=
  { rows := [], search := "", dutyStart := "", dutyEnd := "", pilot := "",
    dz := "", reg := "", date := "", fobStart := "", isClosed := false }

/-- One user-visible operation.  `addRow` carries the `uid()` the source
generates; `setNow` carries the `nowHHMM()` wall-clock reading;
`importOp` carries the file text and the stream of `uid()` values used
for the imported lines. -/
inductive Op where
  | addRow (newId : String)
  | addFerryRow
  | update (id : String) (k : Key) (v : String)
  | setNow (id : String) (k : Key) (now : String)
  | deleteRow (id : String)
  | clearRow (id : String)
  | setSearch (v : String)
  | setPilot (v : String)
  | setDz (v : String)
  | setReg (v : String)
  | setDate (v : String)
  | setFobStart (v : String)
  | setDutyStart (v : String)
  | setDutyEnd (v : String)
  | importOp (ids : Nat → String) (text : String)
  | closeFlight
  | newFlight

/-- The row-list update of `addRow`: build the fresh load row (label
`String(nextLoadNumber(r))`, `FOB` seeded from starting fuel only when no
load rows exist yet, `fobStart || ""` being `fobStart` itself), then
splice it in directly after the ferry row if one is present, else append
it. -/
def addRowRows (fobStart newId : String) (r : List Entry) : List Entry :=
  let hasLoads := r.any (fun x => x.id ≠ ferryId)
  let newRow := mkLoadRow newId (intStr (nextLoadNumber r))
    (if hasLoads then "" else fobStart)
  match r.findIdx? (fun x => x.id = ferryId) with
  | some i => r.take (i + 1) ++ newRow :: r.drop (i + 1)
  | none => r ++ [newRow]

/-- The state transition of each operation, as wired in the component
(see the section comment for where each closed-state guard comes from).
`setNow(id, key)` re-checks `isClosed` and then delegates to
`updateRow(id, key, nowHHMM())`.  `setFobStart` models the controlled
FOB (Start) input together with the `[fobStart]` effect: React bails out
when the value is unchanged, and the forward-seed effect runs exactly
when the value changed. -/
def step (op : Op) (s : AppState) : AppState :=
  match op with
  | .addRow newId =>
    if s.isClosed then s else { s with rows := addRowRows s.fobStart newId s.rows }
  | .addFerryRow =>
    if s.isClosed then s
    else if s.rows.any (fun x => x.id = ferryId) then s
    else { s with rows := mkFerryRow s.fobStart :: s.rows }
  | .update id k v =>
    if s.isClosed then s
    else { s with rows := s.rows.map (fun row => if row.id = id then updateEntry row k v else row) }
  | .setNow id k now =>
    if s.isClosed then s
    else { s with rows := s.rows.map (fun row => if row.id = id then updateEntry row k now else row) }
  | .deleteRow id =>
    if s.isClosed then s else { s with rows := s.rows.filter (fun x => x.id ≠ id) }
  | .clearRow id =>
    if s.isClosed then s
    else { s with rows := s.rows.map (fun row => if row.id = id then clearEntry row else row) }
  | .setSearch v => if s.isClosed then s else { s with search := v }
  | .setPilot v => if s.isClosed then s else { s with pilot := v }
  | .setDz v => if s.isClosed then s else { s with dz := v }
  | .setReg v => if s.isClosed then s else { s with reg := v }
  | .setDate v => if s.isClosed then s else { s with date := v }
  | .setFobStart v =>
    if v = s.fobStart then s else { s with fobStart := v, rows := seedFob v s.rows }
  | .setDutyStart v => { s with dutyStart := v }
  | .setDutyEnd v => { s with dutyEnd := v }
  | .importOp ids text => { s with rows := applyImport (importCSV ids text) s.rows }
  | .closeFlight => { s with isClosed := true }
  | .newFlight => { s with rows := [], isClosed := false }

/-- Run a sequence of operations from the freshly mounted sheet. -/
def run (ops : List Op) : AppState :=
  ops.foldl (fun s op => step op s) initialState

/-- The operations the spec's closed-sheet lock covers: the six
row-mutating operations and the header-field edits other than the
duty-window fields and the starting-fuel field. -/
def lockedOp : Op → Bool
  | .addRow _ | .addFerryRow | .update _ _ _ | .setNow _ _ _
  | .deleteRow _ | .clearRow _
  | .setPilot _ | .setDz _ | .setReg _ | .setDate _ => true
  | _ => false

/-- Operations other than CSV import whose embedded fresh ids are ones
`uid()` can actually produce: `uid()` returns
`Math.random().toString(36).slice(2, 10)`, at most eight characters, so
it can never equal the fifteen-character ferry identifier. -/
def nonImportWf : Op → Bool
  | .importOp _ _ => false
  | .addRow newId => decide (newId.length ≤ 8)
  | _ => true

/-- All ferry-identified rows sit at the head of the list: no row in the
tail carries the ferry identifier.  This implies both "at most one ferry
row" and "the ferry row, when present, is first". -/
def FerryHeadOnly (rows : List Entry) : Prop := ∀ r ∈ rows.tail, r.id ≠ ferryId

/-! ## Theorems -/

/-- C3: `elapsed` (the source's `calcBlock`) returns empty text when
either input is empty or either parses to `0`; otherwise it returns
`end − start` minutes with `1440` added when the difference is negative,
formatted by `minutesToHM` (zero-padded `HH:MM`); in particular
`elapsed("10:10","11:40") = "01:30"` and
`elapsed("23:30","00:10") = "00:40"`.  It is a total function, so it
never fails on any input. -/
theorem C3_elapsed_spec :
    calcBlock "10:10" "11:40" = "01:30" ∧
    calcBlock "23:30" "00:10" = "00:40" ∧
    ∀ toS ldS : String,
      calcBlock toS ldS =
        if toS = "" ∨ ldS = "" then ""
        else if hmToMinutes toS = 0 ∨ hmToMinutes ldS = 0 then ""
        else
          minutesToHM (((hmToMinutes ldS : Int) - (hmToMinutes toS : Int)) +
            (if ((hmToMinutes ldS : Int) - (hmToMinutes toS : Int)) < 0 then 1440 else 0)) := by
  refine ⟨by decide, by decide, ?_⟩
  intro toS ldS
  simp only [calcBlock]
  split_ifs <;> first | rfl | (congr 1; push_cast; omega)

/-- C10: `parseClock` (the source's `hmToMinutes`) performs no range
validation: on any text of the shape one-or-two digits, colon, exactly
two digits it returns `hours * 60 + minutes`, even when the minute part
exceeds 59 or the hour part exceeds 23; e.g. `hmToMinutes "10:99" = 699`,
and `calcBlock` accepts such texts as valid times
(`calcBlock "10:00" "10:99" = "01:39"`). -/
theorem C10_hmToMinutes_no_range_check :
    hmToMinutes "10:99" = 699 ∧
    calcBlock "10:00" "10:99" = "01:39" ∧
    (∀ c1 c3 c4 : Char, c1.isDigit → c3.isDigit → c4.isDigit →
      hmToMinutes ⟨[c1, ':', c3, c4]⟩ =
        digitVal c1 * 60 + (10 * digitVal c3 + digitVal c4)) ∧
    (∀ c1 c2 c3 c4 : Char, c1.isDigit → c2.isDigit → c3.isDigit → c4.isDigit →
      hmToMinutes ⟨[c1, c2, ':', c3, c4]⟩ =
        (10 * digitVal c1 + digitVal c2) * 60 + (10 * digitVal c3 + digitVal c4)) := by
  refine ⟨by decide, by decide, ?_, ?_⟩ <;>
    · intros
      simp [hmToMinutes, String.toList, *]

/-- C10 witness: the general shape theorem applied at `"10:99"`
(digits `'1' '0' ':' '9' '9'`). -/
theorem C10_witness : hmToMinutes "10:99" = 699 := by
  have h := C10_hmToMinutes_no_range_check.2.2.2 '1' '0' '9' '9'
    (by decide) (by decide) (by decide) (by decide)
  have heq : ("10:99" : String) = ⟨['1', '0', ':', '9', '9']⟩ := by decide
  rw [heq, h]; decide

/-- C9: `clearRow` (the source's `clearEntry`) preserves `id`, `Load` and
`BLK/T` and resets every other field (`T/O`, `L/D`, `FLT/T`, `FOB`,
`F/B`, `PAX`, `LDG`, `F/UP`, `REMARKS`) to the empty value. -/
theorem C9_clearEntry_frame (r : Entry) :
    (clearEntry r).id = r.id ∧ (clearEntry r).load = r.load ∧
    (clearEntry r).blk = r.blk ∧
    (clearEntry r).toT = "" ∧ (clearEntry r).ldT = "" ∧ (clearEntry r).flt = "" ∧
    (clearEntry r).fob = "" ∧ (clearEntry r).fb = "" ∧ (clearEntry r).pax = .blank ∧
    (clearEntry r).ldg = .blank ∧ (clearEntry r).fup = "" ∧
    (clearEntry r).remarks = "" :=
  ⟨rfl, rfl, rfl, rfl, rfl, rfl, rfl, rfl, rfl, rfl, rfl, rfl⟩

/-- C5: `nextLoadNumber` ignores the ferry-identified row, discards rows
whose `Load` parses to NaN, and returns the maximum parsed value plus
one, or `1` when nothing parses; the four example evaluations of the
spec hold, and the function is total (it cannot crash). -/
theorem C5_nextLoadNumber_spec :
    nextLoadNumber [] = 1 ∧
    nextLoadNumber [mkLoadRow "a" "1" "", mkLoadRow "b" "2" ""] = 3 ∧
    nextLoadNumber [mkFerryRow ""] = 1 ∧
    nextLoadNumber [mkLoadRow "x" "FERRY" "", mkLoadRow "y" "7" ""] = 8 ∧
    (∀ r rows, r.id = ferryId → nextLoadNumber (r :: rows) = nextLoadNumber rows) ∧
    (∀ r rows, r.id ≠ ferryId → jsNumber r.load = none →
      nextLoadNumber (r :: rows) = nextLoadNumber rows) ∧
    (∀ rows, nextLoadNumber rows =
      match ((rows.filter (fun x => x.id ≠ ferryId)).filterMap
          (fun x => jsNumber x.load)).max? with
      | none => 1
      | some m => m + 1) := by
  refine ⟨by decide, by decide, by decide, by decide, ?_, ?_, fun rows => rfl⟩
  · intro r rows h
    simp [nextLoadNumber, h]
  · intro r rows h hn
    simp [nextLoadNumber, h, hn]

/-- C5 witness: the ferry-exclusion clause applied at a concrete list. -/
theorem C5_witness :
    nextLoadNumber [mkFerryRow "", mkLoadRow "a" "1" ""]
      = nextLoadNumber [mkLoadRow "a" "1" ""] :=
  C5_nextLoadNumber_spec.2.2.2.2.1 (mkFerryRow "") [mkLoadRow "a" "1" ""] rfl

/-- C1 counterexample: the claim "after any change to the takeoff or
landing field, flightTime equals elapsed(takeoff, landing), and no
operation sets flightTime to any other value" fails on the code.  First:
updating `T/O` to `""` on a row whose `L/D` is already `""` skips the
recompute (`next["T/O"] || next["L/D"]` is falsy), so a stale non-empty
`FLT/T` value survives although `elapsed("","") = ""`.  Second: the
generic column branch of the table wires `FLT/T` to an editable
`CellInput` calling `updateRow(row.id, "FLT/T", v)`, which stores the
typed value verbatim — `flightTime` is independently editable. -/
theorem C1_counterexample :
    (updateEntry { mkLoadRow "a" "1" "" with flt := "01:00" } .tO "").flt = "01:00"
    ∧ (updateEntry { mkLoadRow "a" "1" "" with flt := "01:00" } .tO "").toT = ""
    ∧ (updateEntry { mkLoadRow "a" "1" "" with flt := "01:00" } .tO "").ldT = ""
    ∧ calcBlock "" "" = ""
    ∧ (updateEntry (mkLoadRow "a" "1" "") .flt "01:00").flt = "01:00" := by decide

/-- C1 amended: after a change to the takeoff or landing field that
leaves at least one of the pair non-empty, the row's flightTime equals
`elapsed` of the current pair; a change leaving both empty leaves
flightTime unchanged; an update addressed at the flightTime key stores
the given value verbatim (the generic column input makes `FLT/T`
editable); updates to any other key leave flightTime unchanged. -/
theorem C1_amended (r : Entry) (k : Key) (v : String) :
    ((k = .tO ∨ k = .lD) →
      (((updateEntry r k v).toT ≠ "" ∨ (updateEntry r k v).ldT ≠ "") →
        (updateEntry r k v).flt =
          calcBlock (updateEntry r k v).toT (updateEntry r k v).ldT)
      ∧ ((updateEntry r k v).toT = "" → (updateEntry r k v).ldT = "" →
        (updateEntry r k v).flt = r.flt))
    ∧ (k = .flt → (updateEntry r k v).flt = v)
    ∧ (k ≠ .tO → k ≠ .lD → k ≠ .flt → (updateEntry r k v).flt = r.flt) := by
  cases k <;> simp only [updateEntry] <;> split_ifs <;> (try simp_all) <;> tauto

/-- C1 witness: the amended theorem applied at the flightTime key. -/
theorem C1_amended_witness :
    (updateEntry (mkLoadRow "a" "1" "") Key.flt "01:00").flt = "01:00" :=
  (C1_amended (mkLoadRow "a" "1" "") Key.flt "01:00").2.1 rfl

/-- C2 counterexample: with the sheet closed, editing the FOB (Start)
header field is not a no-op — the input carries no
`disabled={isClosed}` attribute, so its change handler still fires and
updates `fobStart` (and, through the forward-seed effect, can mutate a
row's `FOB`). -/
theorem C2_counterexample :
    ({ initialState with isClosed := true } : AppState).isClosed = true
    ∧ step (Op.setFobStart "500") { initialState with isClosed := true }
      ≠ { initialState with isClosed := true } := by decide

/-- C2 amended: for every state with the closed flag set, every
row-mutating operation (add load row, add ferry row, update field,
set-to-now, delete row, clear row) and every header-field edit other
than the duty-window fields **and the starting-fuel field** leaves the
state unchanged. -/
theorem C2_amended (s : AppState) (op : Op) (hc : s.isClosed = true)
    (hop : lockedOp op = true) : step op s = s := by
  cases op <;> simp_all [lockedOp, step]

/-- C2 witness: adding a ferry row to a closed sheet changes nothing. -/
theorem C2_witness :
    step Op.addFerryRow { initialState with isClosed := true }
      = { initialState with isClosed := true } :=
  C2_amended _ _ rfl rfl

/-- C6: the FOB forward seed.  With unique row ids (the data model's id
invariant) and a non-empty new starting-fuel value: there is no target
(and nothing changes) exactly when the sheet has no rows; the target is
the first non-ferry row when load rows exist, else the ferry row; the
unique row carrying the target id has its `FOB` set to the new value
when currently empty and is left untouched when already populated; and
every other row is unchanged. -/
theorem C6_fob_forward_seed (rows : List Entry) (v : String) (hv : v ≠ "")
    (hnd : (rows.map Entry.id).Nodup) :
    (fobTargetId rows = none ↔ rows = [])
    ∧ (rows = [] → seedFob v rows = rows)
    ∧ ((rows.filter (fun r => r.id ≠ ferryId)) ≠ [] →
        fobTargetId rows = ((rows.filter (fun r => r.id ≠ ferryId)).head?).map Entry.id)
    ∧ ((rows.filter (fun r => r.id ≠ ferryId)) = [] →
        fobTargetId rows = (rows.find? (fun r => r.id = ferryId)).map Entry.id)
    ∧ (∀ t, fobTargetId rows = some t →
        ∃ (j : Nat) (rj : Entry), rows[j]? = some rj ∧ rj.id = t
          ∧ (rj.fob = "" → (seedFob v rows)[j]? = some { rj with fob := v })
          ∧ (rj.fob ≠ "" → (seedFob v rows)[j]? = some rj)
          ∧ ∀ i : Nat, i ≠ j → (seedFob v rows)[i]? = rows[i]?) := by
  refine ⟨?_, ?_, ?_, ?_, ?_⟩
  · constructor
    · intro h
      simp only [fobTargetId] at h
      split_ifs at h with hf
      · rcases hx : rows.filter (fun r => r.id ≠ ferryId) with _ | ⟨a, l⟩
        · exact absurd hx hf
        · rw [hx] at h
          simp at h
      · push_neg at hf
        cases rows with
        | nil => rfl
        | cons r t =>
          exfalso
          have h1 := List.filter_eq_nil_iff.mp hf r (List.mem_cons_self r t)
          rcases hfind : (r :: t).find? (fun x => x.id = ferryId) with _ | f
          · have h2 := List.find?_eq_none.mp hfind r (List.mem_cons_self r t)
            simp at h1 h2
            exact h2 h1
          · rw [hfind] at h
            simp at h
    · intro h
      subst h
      rfl
  · intro h
    subst h
    rw [seedFob, if_neg hv]
    rfl
  · intro h
    simp only [fobTargetId]
    rw [if_pos h]
  · intro h
    simp only [fobTargetId]
    rw [if_neg (fun hne => hne h)]
  · intro t ht
    -- a row with the target id exists in `rows`
    have hmem : ∃ rt ∈ rows, rt.id = t := by
      simp only [fobTargetId] at ht
      split_ifs at ht with hf
      · rcases hx : rows.filter (fun r => r.id ≠ ferryId) with _ | ⟨a, l⟩
        · exact absurd hx hf
        · rw [hx] at ht
          simp only [List.head?_cons, Option.map_some', Option.some_inj] at ht
          have ha : a ∈ rows :=
            List.mem_of_mem_filter (p := fun r => r.id ≠ ferryId)
              (by rw [hx]; exact List.mem_cons_self a l)
          exact ⟨a, ha, ht⟩
      · rcases hfind : rows.find? (fun r => r.id = ferryId) with _ | f
        · rw [hfind] at ht
          simp at ht
        · rw [hfind] at ht
          simp only [Option.map_some', Option.some_inj] at ht
          exact ⟨f, List.mem_of_find?_eq_some hfind, ht⟩
    obtain ⟨rt, hrt_mem, hrt_id⟩ := hmem
    obtain ⟨j, hj⟩ := List.getElem?_of_mem hrt_mem
    have hseed : seedFob v rows =
        rows.map (fun r => if r.id = t ∧ r.fob = "" then { r with fob := v } else r) := by
      rw [seedFob, if_neg hv, ht]
    refine ⟨j, rt, hj, hrt_id, ?_, ?_, ?_⟩
    · intro hfob
      rw [hseed]
      simp [hj, hrt_id, hfob]
    · intro hfob
      rw [hseed]
      simp [hj, hrt_id, hfob]
    · intro i hij
      rw [hseed]
      rcases hi : rows[i]? with _ | ri
      · simp [hi]
      · have hid_ne : ri.id ≠ t := by
          intro hid
          apply hij
          have hjlen : j < (rows.map Entry.id).length := by
            have := (List.getElem?_eq_some.mp hj).1
            simpa using this
          refine List.getElem?_inj ?_ hnd ?_
          · have := (List.getElem?_eq_some.mp hi).1
            simpa using this
          · simp [hi, hj, hid, hrt_id]
        simp [hi, hid_ne]

/-- C6 witness: on a one-load-row sheet the target exists and is that
row. -/
theorem C6_witness : fobTargetId [mkLoadRow "a" "1" ""] = some "a" := by
  have h := (C6_fob_forward_seed [mkLoadRow "a" "1" ""] "500"
    (by decide) (by decide)).2.2.1 (by decide)
  simpa using h

/-! ### Ferry-row invariant (C4) -/

lemma updateEntry_id (r : Entry) (k : Key) (v : String) :
    (updateEntry r k v).id = r.id := by
  cases k <;> simp only [updateEntry] <;> split_ifs <;> rfl

lemma ferryHeadOnly_map_id (f : Entry → Entry) (hf : ∀ r, (f r).id = r.id)
    (rows : List Entry) (hinv : FerryHeadOnly rows) :
    FerryHeadOnly (rows.map f) := by
  intro r hr
  rw [← List.map_tail] at hr
  rcases List.mem_map.mp hr with ⟨r', hr', rfl⟩
  rw [hf r']
  exact hinv r' hr'

lemma ferryHeadOnly_filter (p : Entry → Bool) (rows : List Entry)
    (hinv : FerryHeadOnly rows) : FerryHeadOnly (rows.filter p) := by
  intro r hr
  cases rows with
  | nil => simp at hr
  | cons a t =>
    have htail : ∀ x ∈ t, x.id ≠ ferryId := fun x hx => hinv x (by simpa using hx)
    rw [List.filter_cons] at hr
    split_ifs at hr with hp
    · simp only [List.tail_cons] at hr
      exact htail r ((List.filter_sublist t).subset hr)
    · exact htail r ((List.filter_sublist t).subset (List.tail_subset _ hr))

lemma ferryHeadOnly_seedFob (v : String) (rows : List Entry)
    (hinv : FerryHeadOnly rows) : FerryHeadOnly (seedFob v rows) := by
  rw [seedFob]
  split_ifs with h0
  · exact hinv
  · cases htid : fobTargetId rows with
    | none => simp only [htid]; exact hinv
    | some tid =>
      simp only [htid]
      exact ferryHeadOnly_map_id _ (fun r => by split_ifs <;> rfl) _ hinv

lemma ferryHeadOnly_append_one (rows : List Entry) (x : Entry)
    (hx : x.id ≠ ferryId) (hinv : FerryHeadOnly rows) :
    FerryHeadOnly (rows ++ [x]) := by
  intro r hr
  cases rows with
  | nil => simp at hr
  | cons a t =>
    simp only [List.cons_append, List.tail_cons] at hr
    rcases List.mem_append.mp hr with h1 | h2
    · exact hinv r (by simpa using h1)
    · rw [List.mem_singleton.mp h2]
      exact hx

lemma ferryHeadOnly_insertMid (rows : List Entry) (x : Entry) (i : Nat)
    (hx : x.id ≠ ferryId) (hinv : FerryHeadOnly rows) :
    FerryHeadOnly (rows.take (i + 1) ++ x :: rows.drop (i + 1)) := by
  intro r hr
  cases rows with
  | nil => simp at hr
  | cons a t =>
    simp only [List.take_succ_cons, List.drop_succ_cons, List.cons_append,
      List.tail_cons] at hr
    rcases List.mem_append.mp hr with h1 | h2
    · exact hinv r (by simpa using List.take_subset i t h1)
    · rcases List.mem_cons.mp h2 with h3 | h4
      · rw [h3]
        exact hx
      · exact hinv r (by simpa using List.drop_subset i t h4)

lemma step_preserves_ferryHeadOnly (op : Op) (s : AppState)
    (hwf : nonImportWf op = true) (hinv : FerryHeadOnly s.rows) :
    FerryHeadOnly (step op s).rows := by
  cases op with
  | addRow newId =>
    simp only [step]
    split_ifs with hc
    · exact hinv
    · have hlen : newId.length ≤ 8 := by simpa [nonImportWf] using hwf
      have hne : newId ≠ ferryId := fun he => absurd (he ▸ hlen) (by decide)
      simp only [addRowRows]
      cases hidx : s.rows.findIdx? (fun x => x.id = ferryId) with
      | none =>
        simp only [hidx]
        exact ferryHeadOnly_append_one _ _ hne hinv
      | some i =>
        simp only [hidx]
        exact ferryHeadOnly_insertMid _ _ _ hne hinv
  | addFerryRow =>
    simp only [step]
    split_ifs with hc hex
    · exact hinv
    · exact hinv
    · intro r hr
      simp only [List.tail_cons] at hr
      intro hre
      exact hex (List.any_eq_true.mpr ⟨r, hr, by simp [hre]⟩)
  | update id k v =>
    simp only [step]
    split_ifs with hc
    · exact hinv
    · exact ferryHeadOnly_map_id _
        (fun r' => by by_cases h : r'.id = id <;> simp [h, updateEntry_id]) _ hinv
  | setNow id k now =>
    simp only [step]
    split_ifs with hc
    · exact hinv
    · exact ferryHeadOnly_map_id _
        (fun r' => by by_cases h : r'.id = id <;> simp [h, updateEntry_id]) _ hinv
  | deleteRow id =>
    simp only [step]
    split_ifs with hc
    · exact hinv
    · exact ferryHeadOnly_filter _ _ hinv
  | clearRow id =>
    simp only [step]
    split_ifs with hc
    · exact hinv
    · exact ferryHeadOnly_map_id _
        (fun r' => by by_cases h : r'.id = id <;> simp [h, clearEntry]) _ hinv
  | setSearch v => simp only [step]; split_ifs <;> exact hinv
  | setPilot v => simp only [step]; split_ifs <;> exact hinv
  | setDz v => simp only [step]; split_ifs <;> exact hinv
  | setReg v => simp only [step]; split_ifs <;> exact hinv
  | setDate v => simp only [step]; split_ifs <;> exact hinv
  | setFobStart v =>
    simp only [step]
    split_ifs with h
    · exact hinv
    · exact ferryHeadOnly_seedFob v s.rows hinv
  | setDutyStart v => exact hinv
  | setDutyEnd v => exact hinv
  | importOp ids text => simp [nonImportWf] at hwf
  | closeFlight => exact hinv
  | newFlight =>
    intro r hr
    simp [step] at hr

lemma run_preserves_ferryHeadOnly (ops : List Op) :
    ∀ s : AppState, (∀ op ∈ ops, nonImportWf op = true) → FerryHeadOnly s.rows →
      FerryHeadOnly ((ops.foldl (fun s op => step op s) s).rows) := by
  induction ops with
  | nil => intro s _ h; exact h
  | cons op rest ih =>
    intro s hall h
    simp only [List.foldl_cons]
    exact ih (step op s) (fun o ho => hall o (List.mem_cons_of_mem _ ho))
      (step_preserves_ferryHeadOnly op s (hall op (List.mem_cons_self _ _)) h)

/-- C4 counterexample: through CSV import the invariant fails both ways.
Importing a file with two `FERRY`-labelled lines yields two rows carrying
the reserved ferry identifier (`importCSV` remaps every such line), and
an imported file whose `FERRY` line comes second yields a
ferry-identified row at index 1, not first. -/
theorem C4_counterexample :
    ((run [Op.importOp (fun _ => "u")
        "Load,T/O,L/D,FLT/T,BLK/T,FOB,F/B,PAX,LDG,F/UP,REMARKS\nFERRY,,,,,,,,,,\nFERRY,,,,,,,,,,"]).rows.countP
      (fun r => r.id = ferryId)) = 2
    ∧ (run [Op.importOp (fun _ => "u")
        "Load,T/O,L/D,FLT/T,BLK/T,FOB,F/B,PAX,LDG,F/UP,REMARKS\n1,,,,,,,,,,\nFERRY,,,,,,,,,,"]).rows[1]?
        = some (mkFerryRow "") := by
  constructor <;> decide

/-- C4 amended: in every state reachable from the fresh sheet by any
sequence of operations **other than CSV import** (with the generated row
ids of at most eight characters, as `uid()` produces), at most one row
carries the reserved ferry identifier, and any row carrying it is the
first element of the row sequence.  CSV import can violate both parts
(see the counterexample). -/
theorem C4_amended (ops : List Op) (h : ∀ op ∈ ops, nonImportWf op = true) :
    ((run ops).rows.countP (fun r => r.id = ferryId)) ≤ 1
    ∧ ∀ (i : Nat) (r : Entry), (run ops).rows[i]? = some r → r.id = ferryId → i = 0 := by
  have hinv : FerryHeadOnly (run ops).rows := by
    apply run_preserves_ferryHeadOnly ops initialState h
    intro r hr
    simp [initialState] at hr
  constructor
  · rcases hrows : (run ops).rows with _ | ⟨a, t⟩
    · simp
    · rw [hrows] at hinv
      have h0 : t.countP (fun r => r.id = ferryId) = 0 :=
        List.countP_eq_zero.mpr (by
          intro x hx
          simpa using hinv x (by simpa using hx))
      rw [List.countP_cons, h0]
      split_ifs <;> omega
  · intro i r hget hferry
    cases i with
    | zero => rfl
    | succ m =>
      exfalso
      have hmem : r ∈ (run ops).rows.tail := by
        apply List.getElem?_mem (n := m)
        rw [List.getElem?_tail]
        exact hget
      exact hinv r hmem hferry

/-- C4 witness: a ferry row plus a load row added by hand satisfy the
invariant. -/
theorem C4_witness :
    ((run [Op.addFerryRow, Op.addRow "abc12345"]).rows.countP
      (fun r => r.id = ferryId)) ≤ 1 :=
  (C4_amended [Op.addFerryRow, Op.addRow "abc12345"] (by decide)).1

/-- C7 counterexample: a CSV text whose (non-matching) first line is its
only line is rejected *silently* — `importCSV` returns before the header
check when fewer than two non-empty lines remain, so no user-facing
message is shown, although the claim promises one for every mismatching
text. -/
theorem C7_counterexample :
    headerLineOk "xyz" = false
    ∧ importCSV (fun _ => "u") "xyz" = .tooShort
    ∧ importCSV (fun _ => "u") "xyz" ≠ .headerMismatch := by
  refine ⟨by decide, by decide, by decide⟩

/-- C7 amended: for every CSV text whose first non-empty line fails the
per-column header check, import never replaces the sheet — the existing
row set is left completely unchanged; when the text has at least two
non-empty lines the abort comes with the user-facing message
(`alert(...)`, the `headerMismatch` outcome), and with fewer than two
non-empty lines the import aborts silently. -/
theorem C7_amended (ids : Nat → String) (text : String)
    (h : headerLineOk (((splitCRLF text).filter (fun l => l ≠ "")).getD 0 "") = false) :
    (∀ rows, applyImport (importCSV ids text) rows = rows)
    ∧ (2 ≤ ((splitCRLF text).filter (fun l => l ≠ "")).length
        → importCSV ids text = .headerMismatch)
    ∧ (((splitCRLF text).filter (fun l => l ≠ "")).length < 2
        → importCSV ids text = .tooShort) := by
  refine ⟨?_, ?_, ?_⟩
  · intro rows
    have himp : importCSV ids text = .tooShort ∨ importCSV ids text = .headerMismatch := by
      simp only [importCSV]
      split_ifs with h1 h2
      · exact Or.inl rfl
      · exact absurd h2 (by simpa using h)
      · exact Or.inr rfl
    rcases himp with h' | h' <;> rw [h'] <;> rfl
  · intro hlen
    simp only [importCSV]
    rw [if_neg (by omega), if_neg (by simpa using h)]
  · intro hlen
    simp only [importCSV]
    rw [if_pos hlen]

/-- C7 witness: the amended theorem applied to a concrete two-line file
with a bad header — the sheet is untouched. -/
theorem C7_witness :
    applyImport (importCSV (fun _ => "u") "bad,header\n1,,,,,,,,,,") [mkFerryRow ""]
      = [mkFerryRow ""] :=
  (C7_amended (fun _ => "u") "bad,header\n1,,,,,,,,,," (by decide)).1 [mkFerryRow ""]

/-! ### Decimal printing and parsing round-trip (towards C8) -/

lemma natCharsAux_indep : ∀ f₁ f₂ n : Nat, n < f₁ → n < f₂ →
    natCharsAux f₁ n = natCharsAux f₂ n := by
  intro f₁
  induction f₁ with
  | zero => intro f₂ n h; omega
  | succ f ih =>
    intro f₂ n h1 h2
    cases f₂ with
    | zero => omega
    | succ g =>
      simp only [natCharsAux]
      by_cases h10 : n < 10
      · simp [h10]
      · simp only [if_neg h10]
        rw [ih g (n / 10) (by omega) (by omega)]

lemma natChars_unfold (n : Nat) :
    natChars n = if n < 10 then [Char.ofNat (48 + n)]
      else natChars (n / 10) ++ [Char.ofNat (48 + n % 10)] := by
  rw [natChars]
  by_cases h : n < 10
  · simp [natCharsAux, h]
  · simp only [natCharsAux, if_neg h]
    rw [natCharsAux_indep n (n / 10 + 1) (n / 10) (by omega) (by omega)]
    rfl

lemma isDigit_ofNat {d : Nat} (h : d < 10) : (Char.ofNat (48 + d)).isDigit = true := by
  have hfin : ∀ x : Fin 10, (Char.ofNat (48 + x.val)).isDigit = true := by decide
  exact hfin ⟨d, h⟩

lemma digitVal_ofNat {d : Nat} (h : d < 10) : digitVal (Char.ofNat (48 + d)) = d := by
  have hfin : ∀ x : Fin 10, digitVal (Char.ofNat (48 + x.val)) = x.val := by decide
  exact hfin ⟨d, h⟩

lemma natChars_ne_nil (n : Nat) : natChars n ≠ [] := by
  rw [natChars_unfold]
  split_ifs <;> simp

lemma natChars_all_digits (n : Nat) : ∀ c ∈ natChars n, c.isDigit = true := by
  induction n using Nat.strong_induction_on with
  | _ n ih =>
    rw [natChars_unfold]
    by_cases h : n < 10
    · simpa [h] using isDigit_ofNat h
    · rw [if_neg h]
      intro c hc
      rcases List.mem_append.mp hc with h1 | h2
      · exact ih (n / 10) (by omega) c h1
      · rw [List.mem_singleton.mp h2]
        exact isDigit_ofNat (by omega)

lemma digitsVal_append_one (l : List Char) (c : Char) :
    digitsVal (l ++ [c]) = digitsVal l * 10 + digitVal c := by
  simp [digitsVal, List.foldl_append]

lemma digitsVal_natChars (n : Nat) : digitsVal (natChars n) = n := by
  induction n using Nat.strong_induction_on with
  | _ n ih =>
    rw [natChars_unfold]
    by_cases h : n < 10
    · rw [if_pos h]
      simp [digitsVal, digitVal_ofNat h]
    · rw [if_neg h, digitsVal_append_one, ih (n / 10) (by omega),
        digitVal_ofNat (show n % 10 < 10 by omega)]
      omega

lemma parseDigits_natChars (n : Nat) : parseDigits (natChars n) = some n := by
  rw [parseDigits, if_pos, digitsVal_natChars]
  refine ⟨natChars_ne_nil n, ?_⟩
  rw [List.all_eq_true]
  intro c hc
  simpa using natChars_all_digits n c hc

lemma isWs_eq_false_of_isDigit (c : Char) (h : c.isDigit = true) : isWs c = false := by
  rcases eq_or_ne c ' ' with rfl | h1
  · exact absurd h (by decide)
  rcases eq_or_ne c '\t' with rfl | h2
  · exact absurd h (by decide)
  rcases eq_or_ne c '\n' with rfl | h3
  · exact absurd h (by decide)
  rcases eq_or_ne c '\r' with rfl | h4
  · exact absurd h (by decide)
  simp [isWs, h1, h2, h3, h4]

lemma dropWhile_eq_self_of {p : Char → Bool} {l : List Char}
    (h : ∀ c ∈ l, p c = false) : l.dropWhile p = l := by
  cases l with
  | nil => rfl
  | cons a t => simp [List.dropWhile_cons, h a (by simp)]

lemma jsTrim_eq_self {l : List Char} (h : ∀ c ∈ l, isWs c = false) : jsTrim l = l := by
  rw [jsTrim, dropWhile_eq_self_of h,
    dropWhile_eq_self_of (fun c hc => h c (List.mem_reverse.mp hc)), List.reverse_reverse]

lemma jsNumber_intStr (n : Int) : jsNumber (intStr n) = some n := by
  rcases le_or_lt 0 n with h | h
  · rw [intStr, if_neg (by omega)]
    have htrim : jsTrim (natChars n.natAbs) = natChars n.natAbs :=
      jsTrim_eq_self (fun c hc => isWs_eq_false_of_isDigit c (natChars_all_digits _ c hc))
    have htl : ((⟨natChars n.natAbs⟩ : String)).toList = natChars n.natAbs := rfl
    simp only [jsNumber, htl, htrim]
    rcases hl : natChars n.natAbs with _ | ⟨c, ds⟩
    · exact absurd hl (natChars_ne_nil _)
    · have hdig : c.isDigit = true := natChars_all_digits _ c (by rw [hl]; simp)
      have hcm : c ≠ '-' := fun he => absurd (he ▸ hdig) (by decide)
      have hcp : c ≠ '+' := fun he => absurd (he ▸ hdig) (by decide)
      rw [if_neg (by simp), if_neg (by simpa using hcm), if_neg (by simpa using hcp),
        ← hl, parseDigits_natChars]
      simp [Int.natAbs_of_nonneg h]
  · rw [intStr, if_pos h]
    have htrim : jsTrim ('-' :: natChars n.natAbs) = '-' :: natChars n.natAbs := by
      apply jsTrim_eq_self
      intro c hc
      rcases List.mem_cons.mp hc with rfl | hc'
      · decide
      · exact isWs_eq_false_of_isDigit c (natChars_all_digits _ c hc')
    have htl : ((⟨'-' :: natChars n.natAbs⟩ : String)).toList = '-' :: natChars n.natAbs := rfl
    simp only [jsNumber, htl, htrim]
    rw [if_neg (by simp), if_pos (by simp)]
    simp [parseDigits_natChars]
    simp [abs_of_neg h]

lemma intStr_ne_empty (n : Int) : intStr n ≠ "" := by
  rw [intStr]
  split_ifs <;>
    · intro hs
      have := congrArg String.toList hs
      simp only [String.toList] at this
      first
        | exact List.noConfusion this
        | exact natChars_ne_nil _ this

lemma jsCell_numCellStr (v : NumCell) : jsCell (numCellStr v) = v := by
  cases v with
  | blank => decide
  | nan => decide
  | num n => rw [numCellStr, jsCell, if_neg (intStr_ne_empty n), jsNumber_intStr]

/-! ### CSV split/join plumbing (towards C8) -/

lemma str_ext {a b : String} (h : a.toList = b.toList) : a = b := by
  cases a
  cases b
  simp only [String.toList] at h
  rw [h]

lemma map_mk_toList (ls : List String) :
    (ls.map String.toList).map (fun l => (⟨l⟩ : String)) = ls := by
  induction ls with
  | nil => rfl
  | cons a t ih => simp [ih]

lemma intercalate_cons₂ (s a b : List Char) (l : List (List Char)) :
    List.intercalate s (a :: b :: l) = a ++ s ++ List.intercalate s (b :: l) := by
  simp [List.intercalate, List.intersperse_cons_cons, List.append_assoc]

lemma mem_of_mem_intercalate (x ch : Char) :
    ∀ ls : List (List Char), ch ∈ List.intercalate [x] ls →
      ch = x ∨ ∃ l ∈ ls, ch ∈ l := by
  intro ls
  induction ls with
  | nil => intro h; simp [List.intercalate] at h
  | cons a t ih =>
    cases t with
    | nil =>
      intro h
      simp only [List.intercalate, List.intersperse_singleton, List.flatten] at h
      exact Or.inr ⟨a, by simp, by simpa using h⟩
    | cons b t' =>
      intro h
      rw [intercalate_cons₂] at h
      rcases List.mem_append.mp h with h1 | h2
      · rcases List.mem_append.mp h1 with h3 | h4
        · exact Or.inr ⟨a, by simp, h3⟩
        · exact Or.inl (List.mem_singleton.mp h4)
      · rcases ih h2 with h5 | ⟨l, hl, hcl⟩
        · exact Or.inl h5
        · exact Or.inr ⟨l, by simp [hl], hcl⟩

lemma jsSplitChar_joinChar (c : Char) (ls : List String) (hne : ls ≠ [])
    (h : ∀ s ∈ ls, c ∉ s.toList) :
    jsSplitChar c (joinChar c ls) = ls := by
  have htl : (joinChar c ls).toList = List.intercalate [c] (ls.map String.toList) := rfl
  rw [jsSplitChar, htl, List.splitOn_intercalate _ c
    (by intro l hl
        rcases List.mem_map.mp hl with ⟨s, hs, rfl⟩
        exact h s hs)
    (by simpa using hne)]
  exact map_mk_toList ls

lemma stripCRPieces_of_clean :
    ∀ ps : List (List Char), (∀ l ∈ ps, '\r' ∉ l) → stripCRPieces ps = ps := by
  intro ps
  induction ps with
  | nil => intro _; rfl
  | cons a t ih =>
    intro h
    cases t with
    | nil => rfl
    | cons b t' =>
      have hstep : stripCRPieces (a :: b :: t') = dropTailCR a :: stripCRPieces (b :: t') := rfl
      have ha : dropTailCR a = a := by
        rw [dropTailCR, if_neg]
        intro hg
        exact (h a (by simp)) (List.mem_of_getLast?_eq_some hg)
      rw [hstep, ha, ih (fun l hl => h l (List.mem_cons_of_mem _ hl))]

lemma splitCRLF_joinChar (ls : List String) (hne : ls ≠ [])
    (h : ∀ s ∈ ls, ∀ ch ∈ s.toList, ch ≠ '\n' ∧ ch ≠ '\r') :
    splitCRLF (joinChar '\n' ls) = ls := by
  have htl : (joinChar '\n' ls).toList = List.intercalate ['\n'] (ls.map String.toList) := rfl
  have hsplit : (joinChar '\n' ls).toList.splitOn '\n' = ls.map String.toList := by
    rw [htl]
    exact List.splitOn_intercalate _ '\n'
      (by intro l hl
          rcases List.mem_map.mp hl with ⟨s, hs, rfl⟩
          intro hc
          exact (h s hs _ hc).1 rfl)
      (by simpa using hne)
  rw [splitCRLF, hsplit, stripCRPieces_of_clean _
    (by intro l hl
        rcases List.mem_map.mp hl with ⟨s, hs, rfl⟩
        intro hr
        exact (h s hs _ hr).2 rfl)]
  exact map_mk_toList ls

lemma exportCSV_join (rows : List Entry) (hne : rows ≠ []) :
    exportCSV rows =
      joinChar '\n' (joinChar ',' (colsKeys.map headerName) :: rows.map rowLine) := by
  apply str_ext
  rcases rows with _ | ⟨r0, rest⟩
  · exact absurd rfl hne
  · have hl : ((r0 :: rest).map rowLine).map String.toList =
        (rowLine r0).toList :: (rest.map rowLine).map String.toList := by simp
    show (joinChar ',' (colsKeys.map headerName)).toList ++ "\n".toList ++
        (joinChar '\n' ((r0 :: rest).map (fun r => joinChar ',' (colsKeys.map (colStr r))))).toList
      = (joinChar '\n' (joinChar ',' (colsKeys.map headerName) :: (r0 :: rest).map rowLine)).toList
    have h1 : (joinChar '\n' ((r0 :: rest).map (fun r => joinChar ',' (colsKeys.map (colStr r))))).toList
        = List.intercalate ['\n'] (((r0 :: rest).map rowLine).map String.toList) := rfl
    have h2 : (joinChar '\n' (joinChar ',' (colsKeys.map headerName) :: (r0 :: rest).map rowLine)).toList
        = List.intercalate ['\n']
            ((joinChar ',' (colsKeys.map headerName)).toList ::
              ((r0 :: rest).map rowLine).map String.toList) := rfl
    rw [h1, h2, hl, intercalate_cons₂]
    rfl

lemma rowLine_toList (r : Entry) :
    (rowLine r).toList = List.intercalate [','] ((content r).map String.toList) := rfl

lemma content_explicit (r : Entry) :
    content r = [r.load, r.toT, r.ldT, r.flt, r.blk, r.fob, r.fb,
      numCellStr r.pax, numCellStr r.ldg, r.fup, r.remarks] := rfl

lemma rowClean_spec {r : Entry} (h : rowClean r = true) :
    ∀ s ∈ content r, ∀ ch ∈ s.toList, ¬(ch = ',' ∨ ch = '\n' ∨ ch = '\r') := by
  intro s hs ch hch
  simp only [rowClean, List.all_eq_true] at h
  have h1 := h s hs
  simp only [List.all_eq_true] at h1
  have h2 := h1 ch hch
  simpa using h2

lemma rowLine_clean {r : Entry} (h : rowClean r = true) :
    ∀ ch ∈ (rowLine r).toList, ch ≠ '\n' ∧ ch ≠ '\r' := by
  intro ch hch
  rw [rowLine_toList] at hch
  rcases mem_of_mem_intercalate ',' ch _ hch with h1 | ⟨l, hl, hcl⟩
  · subst h1
    exact ⟨by decide, by decide⟩
  · rcases List.mem_map.mp hl with ⟨s, hs, rfl⟩
    have := rowClean_spec h s hs ch hcl
    exact ⟨fun he => this (Or.inr (Or.inl he)), fun he => this (Or.inr (Or.inr he))⟩

lemma rowLine_ne_empty (r : Entry) : rowLine r ≠ "" := by
  intro hs
  have h' := congrArg String.toList hs
  rw [rowLine_toList, content_explicit] at h'
  simp only [List.map_cons, intercalate_cons₂] at h'
  simp at h'

lemma jsSplit_rowLine (r : Entry) (h : rowClean r = true) :
    jsSplitChar ',' (rowLine r) = content r := by
  have heq : rowLine r = joinChar ',' (content r) := rfl
  rw [heq]
  apply jsSplitChar_joinChar
  · rw [content_explicit]
    simp
  · intro s hs hc
    exact rowClean_spec h s hs ',' hc (Or.inl rfl)

lemma parseEntry_content (fresh : String) (r : Entry)
    (hflt : r.flt = "" → calcBlock r.toT r.ldT = "")
    (hfresh : fresh ≠ ferryId) :
    content (parseEntry fresh (content r)) = content r
    ∧ ((parseEntry fresh (content r)).id = ferryId ↔
        (parseEntry fresh (content r)).load = "FERRY") := by
  have hflt' : (if r.flt = "" then calcBlock r.toT r.ldT else r.flt) = r.flt := by
    by_cases hf : r.flt = ""
    · rw [if_pos hf, hflt hf, hf]
    · rw [if_neg hf]
  have hentry : parseEntry fresh (content r) =
      { id := if r.load = "FERRY" then ferryId else fresh,
        load := r.load, toT := r.toT, ldT := r.ldT,
        flt := if r.flt = "" then calcBlock r.toT r.ldT else r.flt,
        blk := r.blk, fob := r.fob, fb := r.fb,
        pax := jsCell (numCellStr r.pax), ldg := jsCell (numCellStr r.ldg),
        fup := r.fup, remarks := r.remarks } := by
    rw [content_explicit]
    rfl
  constructor
  · rw [hentry]
    simp [content_explicit, hflt', jsCell_numCellStr]
  · rw [hentry]
    constructor
    · intro hid
      by_cases hload : r.load = "FERRY"
      · simpa using hload
      · exfalso
        simp only [if_neg hload] at hid
        exact hfresh hid
    · intro hload
      simp only at hload
      simp [hload]

lemma parsed_rows_spec (ids : Nat → String) (hids : ∀ n, ids n ≠ ferryId) :
    ∀ (rows : List Entry) (k : Nat),
      rows.all rowClean = true →
      (∀ r ∈ rows, r.flt = "" → calcBlock r.toT r.ldT = "") →
      ((((rows.map rowLine).enumFrom k).map
          (fun p => parseEntry (ids p.1) (jsSplitChar ',' p.2))).map content
        = rows.map content)
      ∧ ∀ r' ∈ ((rows.map rowLine).enumFrom k).map
          (fun p => parseEntry (ids p.1) (jsSplitChar ',' p.2)),
          ((r'.id = ferryId) ↔ r'.load = "FERRY") := by
  intro rows
  induction rows with
  | nil => intro k _ _; exact ⟨rfl, by simp⟩
  | cons r t ih =>
    intro k hclean hflt
    simp only [List.all_cons, Bool.and_eq_true] at hclean
    have hr := parseEntry_content (ids k) r (hflt r (by simp)) (hids k)
    have hcell : jsSplitChar ',' (rowLine r) = content r := jsSplit_rowLine r hclean.1
    have iht := ih (k + 1) hclean.2 (fun x hx => hflt x (List.mem_cons_of_mem _ hx))
    constructor
    · simp only [List.map_cons, List.enumFrom_cons]
      rw [hcell, hr.1, iht.1]
    · intro r' hr'
      simp only [List.map_cons, List.enumFrom_cons, List.mem_cons] at hr'
      rcases hr' with rfl | hr''
      · rw [hcell]
        exact hr.2
      · exact iht.2 r' hr''

/-- C8 counterexample: the round-trip claim fails on the code in two
ways.  Exporting the empty row set yields a header-only file, and the
reader rejects it silently (`lines.length < 2`) instead of reproducing the
empty sheet — an existing non-empty sheet stays as it is.  And a row
whose `FLT/T` is empty while its `T/O`/`L/D` pair is computable comes
back with `FLT/T` filled in by the import-side recompute, so its content
is not reproduced. -/
theorem C8_counterexample :
    (importCSV (fun _ => "u") (exportCSV ([] : List Entry)) = .tooShort)
    ∧ applyImport (importCSV (fun _ => "u") (exportCSV ([] : List Entry)))
        [mkLoadRow "a" "1" ""] = [mkLoadRow "a" "1" ""]
    ∧ importCSV (fun _ => "u")
        (exportCSV [{ mkLoadRow "a" "1" "" with toT := "10:00", ldT := "11:00" }])
      = .replaced [{ mkLoadRow "u" "1" "" with toT := "10:00", ldT := "11:00", flt := "01:00" }]
    ∧ content { mkLoadRow "a" "1" "" with toT := "10:00", ldT := "11:00" }
      ≠ content { mkLoadRow "u" "1" "" with toT := "10:00", ldT := "11:00", flt := "01:00" } := by
  refine ⟨by decide, by decide, by decide, by decide⟩

/-- C8 amended: for every **non-empty** row set whose fields contain no
comma, line feed or carriage return, and in which a row's `FLT/T` is
empty only when `calcBlock` of its `T/O`/`L/D` pair is also empty,
exporting to CSV and re-importing the result replaces the sheet with
rows of identical per-column content, and a re-imported row carries the
reserved ferry identifier exactly when its `Load` label is `"FERRY"`
(fresh ids are `uid()` values, never the ferry identifier).  An empty
row set round-trips to a silent no-op, and an empty-but-computable
`FLT/T` cell is filled in on import (see the counterexample). -/
theorem C8_amended (rows : List Entry) (ids : Nat → String)
    (hne : rows ≠ [])
    (hclean : rows.all rowClean = true)
    (hflt : ∀ r ∈ rows, r.flt = "" → calcBlock r.toT r.ldT = "")
    (hids : ∀ n, ids n ≠ ferryId) :
    ∃ rows', importCSV ids (exportCSV rows) = .replaced rows'
      ∧ rows'.map content = rows.map content
      ∧ ∀ r' ∈ rows', ((r'.id = ferryId) ↔ r'.load = "FERRY") := by
  have hclean' : ∀ r ∈ rows, rowClean r = true :=
    fun r hr => List.all_eq_true.mp hclean r hr
  have hLines : splitCRLF (exportCSV rows) =
      joinChar ',' (colsKeys.map headerName) :: rows.map rowLine := by
    rw [exportCSV_join rows hne]
    apply splitCRLF_joinChar
    · simp
    · intro s hs
      rcases List.mem_cons.mp hs with rfl | hs'
      · have hHdr : ∀ ch ∈ (joinChar ',' (colsKeys.map headerName)).toList,
            ch ≠ '\n' ∧ ch ≠ '\r' := by decide
        exact hHdr
      · rcases List.mem_map.mp hs' with ⟨r, hr, rfl⟩
        exact rowLine_clean (hclean' r hr)
  have hfilter : (splitCRLF (exportCSV rows)).filter (fun l => l ≠ "") =
      joinChar ',' (colsKeys.map headerName) :: rows.map rowLine := by
    rw [hLines, List.filter_cons, if_pos (by decide)]
    congr 1
    rw [List.filter_eq_self]
    intro a ha
    rcases List.mem_map.mp ha with ⟨r, hr, rfl⟩
    simpa using rowLine_ne_empty r
  have hmain := parsed_rows_spec ids hids rows 0 hclean hflt
  have hlen : ¬((joinChar ',' (colsKeys.map headerName) :: rows.map rowLine).length < 2) := by
    have h0 : rows.length ≠ 0 := fun h0 => hne (List.length_eq_zero.mp h0)
    simp only [List.length_cons, List.length_map]
    omega
  have hok : headerLineOk
      ((joinChar ',' (colsKeys.map headerName) :: rows.map rowLine).getD 0 "") = true := by
    simp only [List.getD_cons_zero]
    decide
  refine ⟨_, ?_, hmain.1, hmain.2⟩
  simp only [importCSV, hfilter]
  rw [if_neg hlen, if_pos hok]
  rfl

/-- C8 witness: the amended round-trip applied to a concrete two-row
sheet (a ferry row and one load row with times, flight time and a
passenger count). -/
theorem C8_witness :
    ∃ rows', importCSV (fun _ => "w") (exportCSV
        [mkFerryRow "500",
         { mkLoadRow "b" "1" "450" with toT := "10:00", ldT := "11:00", flt := "01:00", pax := .num 10 }]) = .replaced rows'
      ∧ rows'.map content =
          [mkFerryRow "500",
           { mkLoadRow "b" "1" "450" with toT := "10:00", ldT := "11:00", flt := "01:00", pax := .num 10 }].map content
      ∧ ∀ r' ∈ rows', ((r'.id = ferryId) ↔ r'.load = "FERRY") :=
  C8_amended _ _ (by decide) (by decide) (by decide) (fun n => by decide)

end PilotLog

